import Mathlib

/-!
Verification development for the QA_NOISE repository: a shallow embedding of
the Japanese QA perturbation framework (character / word / sentence level
attacks over morphologically tagged text) and of the EM/F1 evaluator, with
theorems settling the specification claims.

External oracles (the morphological tagger, the QA model, translation
pipelines, the jaconv conversion library, the SKK homophone lexicon and the
neologdn/emoji normalizer) are modelled as parameters; everything the
repository itself computes (part-of-speech extraction, target filtering,
randomized edits, reinsertion by first-occurrence substring replacement,
token-bag F1, max-over-gold aggregation, summary assembly) is embedded
directly from the source.  Randomness (`random.randrange`, `random.choice`,
`random.sample`) is modelled by threading explicit draws: `randrange n r`
returns `r % n` (uniform over `0..n-1` as `r` ranges over a period) and
fails, like Python, when the range is empty.
-/

namespace QANoise

/-- MToken models one token produced by the external fugashi tagger: a
surface string and the raw feature string from which the code extracts the
part of speech. -/
structure MToken where
  surface : List Char
  feature : String
deriving DecidableEq

/-- Comma-split part-of-speech extraction used by delete_char.py,
insert_char.py, replace_char.py and swap_char.py:
`features = str(token.feature).split(','); pos = features[0]`, i.e. the
prefix of the feature string up to the first comma. -/
def posFromComma (feature : String) : String :=
  String.mk (feature.toList.takeWhile (fun c => c ≠ ','))

/-- Apostrophe character (written via its code point). -/
def apos : Char := Char.ofNat 39

/-- Characters of the attribute key searched for in feature strings. -/
def posKey : List Char := ['p', 'o', 's', '1', '=', apos]

/-- Index of the first occurrence of `needle` in a character list, mirroring
Python str.find (restricted to the found case; absence is `none`). -/
def findSub (needle : List Char) : List Char → Option Nat
  | [] => if needle.isEmpty then some 0 else none
  | c :: rest =>
      if needle.isPrefixOf (c :: rest) then some 0
      else (findSub needle rest).map (· + 1)

/-- Robust part-of-speech extraction used by repeat_char.py, both
katakana_to_hiragana files, delete_word.py, repeat_word.py, swap_word.py,
replace_synonym.py and homophone_error.py: try the attributed form
pos1=<quoted value> first, falling back to the comma-delimited form. -/
def extractPos (feature : String) : String :=
  let cs := feature.toList
  match findSub posKey cs with
  | none => posFromComma feature
  | some i =>
      let start := i + posKey.length
      let rest := cs.drop start
      match findSub [apos] rest with
      | some j => String.mk (rest.take j)
      | none => String.mk (rest.take (cs.length - 1 - start))

/-- Closed-class part-of-speech categories excluded by most transforms:
particle, auxiliary verb, symbol, sentence boundary marker, whitespace. -/
def excludedFull : List String := ["助詞", "助動詞", "記号", "BOS/EOS", "空白"]

/-- Reduced exclusion set used by the two katakana-to-hiragana transforms:
symbol, sentence boundary marker, whitespace only. -/
def excludedK2H : List String := ["記号", "BOS/EOS", "空白"]

/-- Sample feature string of a particle token in the attributed tagger
encoding, pos1=<quoted 助詞>,pos2=<quoted 格助詞> (the quote marks are
spelled via their code point): the robust extraction reads 助詞 out of it,
while a plain comma split yields the whole first attribute. -/
def particleAttrFeature : String :=
  String.mk (['p', 'o', 's', '1', '=', apos] ++ "助詞".toList ++ [apos, ','] ++
    ['p', 'o', 's', '2', '=', apos] ++ "格助詞".toList ++ [apos])

/-- Test for a character of the katakana block, mirroring the regular
expression range U+30A0 to U+30FF used in the source. -/
def isKatakanaChar (c : Char) : Bool := 0x30A0 ≤ c.toNat && c.toNat ≤ 0x30FF

/-- Test for a character of the hiragana block U+3040 to U+309F. -/
def isHiraganaChar (c : Char) : Bool := 0x3040 ≤ c.toNat && c.toNat ≤ 0x309F

/-- Whether a surface contains at least one katakana character. -/
def containsKatakana (s : List Char) : Bool := s.any isKatakanaChar

/-- Model of Python random.randrange(0, n) with explicit draw `r`: uniform
over `0..n-1`, raising (None) when the range is empty. -/
def randrange (n r : Nat) : Option Nat :=
  if n = 0 then none else some (r % n)

/-- Model of Python random.choice with explicit draw `r`: an element of the
list chosen uniformly, raising (None) on an empty list. -/
def randChoice {α : Type} (l : List α) (r : Nat) : Option α :=
  if l.isEmpty then none else l[r % l.length]?

namespace DeleteChar

/-- Eligibility test of DeleteChar.apply_on_sample: part of speech (comma
split) outside the excluded closed classes, matching the configured tag when
one is set, and surface strictly longer than length_of_word_to_perturb. -/
def eligible (posTag : Option String) (minLen : Nat) (t : MToken) : Bool :=
  let pos := posFromComma t.feature
  !(excludedFull.contains pos) &&
    (match posTag with
     | none => true
     | some p => pos == p) &&
    decide (minLen < t.surface.length)

/-- Ordered surfaces of the eligible tokens (target_tokens in the source). -/
def target_tokens (posTag : Option String) (minLen : Nat)
    (tokens : List MToken) : List (List Char) :=
  (tokens.filter (eligible posTag minLen)).map (·.surface)

/-- DeleteChar.execute_deletion: up to max_perturbs rounds (one candidate
draw per round), each removing the character at randrange(0, length - 1)
while the length strictly exceeds length_of_word_to_perturb, breaking out
otherwise.  The draw list has one entry per loop iteration. -/
def execute_deletion (minLen : Nat) : List Nat → List Char → Option (List Char)
  | [], w => some w
  | r :: rs, w =>
      if minLen < w.length then
        match randrange (w.length - 1) r with
        | none => none
        | some i => execute_deletion minLen rs (w.eraseIdx i)
      else some w

end DeleteChar

namespace InsertChar

/-- Eligibility test of InsertChar.apply_on_sample: comma-split part of
speech outside the excluded closed classes, tag match, and surface length at
least length_of_word_to_perturb (inclusive bound, unlike deletion). -/
def eligible (posTag : Option String) (minLen : Nat) (t : MToken) : Bool :=
  let pos := posFromComma t.feature
  !(excludedFull.contains pos) &&
    (match posTag with
     | none => true
     | some p => pos == p) &&
    decide (minLen ≤ t.surface.length)

/-- Ordered surfaces of the eligible tokens. -/
def target_tokens (posTag : Option String) (minLen : Nat)
    (tokens : List MToken) : List (List Char) :=
  (tokens.filter (eligible posTag minLen)).map (·.surface)

end InsertChar

namespace ReplaceChar

/-- Eligibility test of ReplaceChar.apply_on_sample: comma-split part of
speech outside the excluded closed classes, tag match, and surface strictly
longer than length_of_word_to_perturb. -/
def eligible (posTag : Option String) (minLen : Nat) (t : MToken) : Bool :=
  let pos := posFromComma t.feature
  !(excludedFull.contains pos) &&
    (match posTag with
     | none => true
     | some p => pos == p) &&
    decide (minLen < t.surface.length)

/-- Ordered surfaces of the eligible tokens. -/
def target_tokens (posTag : Option String) (minLen : Nat)
    (tokens : List MToken) : List (List Char) :=
  (tokens.filter (eligible posTag minLen)).map (·.surface)

end ReplaceChar

namespace SwapChar

/-- Eligibility test of SwapChar.apply_on_sample: comma-split part of speech
outside the excluded closed classes, tag match, and surface strictly longer
than length_of_word_to_perturb. -/
def eligible (posTag : Option String) (minLen : Nat) (t : MToken) : Bool :=
  let pos := posFromComma t.feature
  !(excludedFull.contains pos) &&
    (match posTag with
     | none => true
     | some p => pos == p) &&
    decide (minLen < t.surface.length)

/-- Ordered surfaces of the eligible tokens. -/
def target_tokens (posTag : Option String) (minLen : Nat)
    (tokens : List MToken) : List (List Char) :=
  (tokens.filter (eligible posTag minLen)).map (·.surface)

end SwapChar

namespace RepeatChar

/-- Eligibility test of RepeatChar.apply_on_sample: robust (attributed form
first) part-of-speech extraction, exclusion of the full closed-class set,
tag match, length at least length_of_word_to_perturb, and at least one
hiragana character in the surface. -/
def eligible (posTag : Option String) (minLen : Nat) (t : MToken) : Bool :=
  let pos := extractPos t.feature
  !(excludedFull.contains pos) &&
    (match posTag with
     | none => true
     | some p => pos == p) &&
    decide (minLen ≤ t.surface.length) &&
    t.surface.any isHiraganaChar

/-- Ordered surfaces of the eligible tokens. -/
def target_tokens (posTag : Option String) (minLen : Nat)
    (tokens : List MToken) : List (List Char) :=
  (tokens.filter (eligible posTag minLen)).map (·.surface)

end RepeatChar

namespace K2HChar

/-- Eligibility test of the character-level KatakanaToHiragana
apply_on_sample: robust part-of-speech extraction, exclusion of only
symbol / boundary / whitespace (particles and auxiliary verbs are NOT
filtered here), tag match, and at least one katakana character. -/
def eligible (posTag : Option String) (t : MToken) : Bool :=
  let pos := extractPos t.feature
  !(excludedK2H.contains pos) &&
    (match posTag with
     | none => true
     | some p => pos == p) &&
    containsKatakana t.surface

/-- Ordered surfaces of the eligible tokens (target_tokens in the source). -/
def target_tokens (posTag : Option String) (tokens : List MToken) :
    List (List Char) :=
  (tokens.filter (eligible posTag)).map (·.surface)

/-- KatakanaToHiragana.execute_conversion (character level): collect the
indices of katakana characters, return the word unchanged when there are
none, otherwise convert the character at a uniformly chosen index through
the external jaconv kata2hira mapping (passed as an oracle). -/
def execute_conversion (kata2hira : Char → Char) (r : Nat)
    (word : List Char) : List Char :=
  let katakana_indices :=
    (List.range word.length).filter (fun i => isKatakanaChar (word.getD i ' '))
  match randChoice katakana_indices r with
  | none => word
  | some i => word.set i (kata2hira (word.getD i ' '))

end K2HChar

namespace K2HWord

/-- Eligibility test of the word-level KatakanaToHiragana apply_on_sample:
identical filter to the character-level variant (only symbol / boundary /
whitespace excluded, katakana required). -/
def eligible (posTag : Option String) (t : MToken) : Bool :=
  let pos := extractPos t.feature
  !(excludedK2H.contains pos) &&
    (match posTag with
     | none => true
     | some p => pos == p) &&
    containsKatakana t.surface

/-- Indices of the eligible tokens (target_indices in the source). -/
def target_indices (posTag : Option String) (tokens : List MToken) :
    List Nat :=
  (List.range tokens.length).filter
    (fun i => eligible posTag (tokens.getD i ⟨[], ""⟩))

/-- Word-level KatakanaToHiragana attack body: when no eligible indices
exist the raw text is kept, otherwise each chosen index has its whole
surface converted through the jaconv kata2hira oracle and the surfaces are
re-joined without separator.  The chosen indices model the random.sample
result. -/
def apply_on_sample (kata2hira : List Char → List Char)
    (posTag : Option String) (tokens : List MToken) (raw : List Char)
    (chosen : List Nat) : List Char :=
  if (target_indices posTag tokens).isEmpty then raw
  else
    let word_list := tokens.map (·.surface)
    (chosen.foldl
      (fun wl idx => wl.set idx (kata2hira (wl.getD idx []))) word_list).flatten

end K2HWord

/-- Insertion of a value into a descending-sorted list. -/
def insertDesc (x : Nat) : List Nat → List Nat
  | [] => [x]
  | y :: ys => if y ≤ x then x :: y :: ys else y :: insertDesc x ys

/-- Descending sort, modelling list.sort(reverse=True) on the chosen
indices of the word-level attacks. -/
def sortDesc (l : List Nat) : List Nat := l.foldr insertDesc []

namespace DeleteWord

/-- Eligibility test of DeleteWord.apply_on_sample: robust part-of-speech
extraction, full closed-class exclusion, tag match; no length filter. -/
def eligible (posTag : Option String) (t : MToken) : Bool :=
  let pos := extractPos t.feature
  !(excludedFull.contains pos) &&
    (match posTag with
     | none => true
     | some p => pos == p)

/-- Indices of the eligible tokens (target_indices in the source). -/
def target_indices (posTag : Option String) (tokens : List MToken) :
    List Nat :=
  (List.range tokens.length).filter
    (fun i => eligible posTag (tokens.getD i ⟨[], ""⟩))

/-- DeleteWord attack body: with no eligible indices the raw text is kept;
otherwise the chosen indices (random.sample result) are removed from the
surface list in descending order and the remainder re-joined without
separator. -/
def apply_on_sample (posTag : Option String) (tokens : List MToken)
    (raw : List Char) (chosen : List Nat) : List Char :=
  if (target_indices posTag tokens).isEmpty then raw
  else
    let word_list := tokens.map (·.surface)
    ((sortDesc chosen).foldl (fun wl idx => wl.eraseIdx idx) word_list).flatten

end DeleteWord

namespace RepeatWord

/-- Eligibility test of RepeatWord.apply_on_sample: identical selection
logic to DeleteWord (robust extraction, full closed-class exclusion). -/
def eligible (posTag : Option String) (t : MToken) : Bool :=
  let pos := extractPos t.feature
  !(excludedFull.contains pos) &&
    (match posTag with
     | none => true
     | some p => pos == p)

/-- Indices of the eligible tokens. -/
def target_indices (posTag : Option String) (tokens : List MToken) :
    List Nat :=
  (List.range tokens.length).filter
    (fun i => eligible posTag (tokens.getD i ⟨[], ""⟩))

/-- RepeatWord attack body: with no eligible indices the raw text is kept;
otherwise each chosen index (descending order) has its surface duplicated
in place immediately before the original position. -/
def apply_on_sample (posTag : Option String) (tokens : List MToken)
    (raw : List Char) (chosen : List Nat) : List Char :=
  if (target_indices posTag tokens).isEmpty then raw
  else
    let word_list := tokens.map (·.surface)
    ((sortDesc chosen).foldl
      (fun wl idx => wl.insertIdx idx (wl.getD idx [])) word_list).flatten

end RepeatWord

namespace SwapWord

/-- Eligibility test of SwapWord.apply_on_sample: identical selection logic
to DeleteWord (robust extraction, full closed-class exclusion). -/
def eligible (posTag : Option String) (t : MToken) : Bool :=
  let pos := extractPos t.feature
  !(excludedFull.contains pos) &&
    (match posTag with
     | none => true
     | some p => pos == p)

/-- Indices of the eligible tokens. -/
def target_indices (posTag : Option String) (tokens : List MToken) :
    List Nat :=
  (List.range tokens.length).filter
    (fun i => eligible posTag (tokens.getD i ⟨[], ""⟩))

end SwapWord

namespace SynonymReplace

/-- Eligibility test of SynonymReplace.apply_on_sample: identical selection
logic to DeleteWord (robust extraction, full closed-class exclusion). -/
def eligible (posTag : Option String) (t : MToken) : Bool :=
  let pos := extractPos t.feature
  !(excludedFull.contains pos) &&
    (match posTag with
     | none => true
     | some p => pos == p)

/-- Indices of the eligible tokens. -/
def target_indices (posTag : Option String) (tokens : List MToken) :
    List Nat :=
  (List.range tokens.length).filter
    (fun i => eligible posTag (tokens.getD i ⟨[], ""⟩))

end SynonymReplace

namespace HomophoneError

/-- Eligibility of HomophoneError.apply_on_sample for one token, returning
the hiragana reading used as lexicon key when the token is a valid target:
a reading must be extractable (kana= or pron= attribute, an external tagger
feature modelled by the `reading` oracle), the robustly extracted part of
speech must be outside the full closed-class set and match the configured
tag, the reading (converted to hiragana by the jaconv oracle) must be a key
of the SKK lexicon, and the entry must have more than one candidate. -/
def eligibleYomi (skk : String → Option (List String))
    (reading : String → Option String) (kata2hira : String → String)
    (posTag : Option String) (t : MToken) : Option String :=
  match reading t.feature with
  | none => none
  | some readingKatakana =>
      let pos := extractPos t.feature
      if excludedFull.contains pos then none
      else if (match posTag with
               | none => true
               | some p => pos == p) then
        let yomi := kata2hira readingKatakana
        match skk yomi with
        | none => none
        | some candidates => if 1 < candidates.length then some yomi else none
      else none

/-- Replacement step of HomophoneError.apply_on_sample for one chosen
target (index, reading): candidates equal to the current surface at that
index are filtered out; when any remain one is chosen uniformly at random
and written at the index, otherwise the list is left untouched. -/
def replaceStep (skk : String → Option (List String)) (wl : List String)
    (idx : Nat) (yomi : String) (r : Nat) : List String :=
  let original_word := wl.getD idx ""
  let candidates := (skk yomi).getD []
  let valid_candidates := candidates.filter (fun c => c != original_word)
  match randChoice valid_candidates r with
  | some new_word => wl.set idx new_word
  | none => wl

/-- Loop of HomophoneError.apply_on_sample over the sampled targets, each
carrying its own random draw; the perturbed sentence is the join of the
final surface list. -/
def applyTargets (skk : String → Option (List String))
    (targets : List ((Nat × String) × Nat)) (wl : List String) :
    List String :=
  targets.foldl (fun w t => replaceStep skk w t.1.1 t.1.2 t.2) wl

end HomophoneError

/-- Model of Python text.replace(old, new, 1): replace the first occurrence
of `old` in the text by `new`, leaving the text unchanged when `old` does
not occur.  This is the reinsertion policy shared by every character-level
transform (delete_char.py, insert_char.py, swap_char.py, replace_char.py,
repeat_char.py, katakana_to_hiragana_char.py). -/
def replaceFirst (old new : List Char) : List Char → List Char
  | [] => if old.isEmpty then new else []
  | c :: rest =>
      if old.isPrefixOf (c :: rest) then new ++ (c :: rest).drop old.length
      else c :: replaceFirst old new rest

/-- Reinsertion loop of the character-level transforms: each chosen token
with its freshly computed surface is substituted into the running sentence
by a single first-occurrence replacement. -/
def applyReinsertion (pairs : List (List Char × List Char))
    (text : List Char) : List Char :=
  pairs.foldl (fun t pr => replaceFirst pr.1 pr.2 t) text

namespace K2HChar

/-- Character-level KatakanaToHiragana attack body: when no eligible tokens
exist nothing is selected and the raw text survives unchanged; otherwise
every chosen surface is converted at one random katakana position and
reinserted by first-occurrence replacement. -/
def apply_on_sample (kata2hira : Char → Char) (posTag : Option String)
    (tokens : List MToken) (raw : List Char)
    (chosen : List (List Char)) (draws : List Nat) : List Char :=
  let words_to_perturb :=
    if (target_tokens posTag tokens).isEmpty then [] else chosen
  applyReinsertion
    ((words_to_perturb.zip draws).map
      (fun wr => (wr.1, execute_conversion kata2hira wr.2 wr.1))) raw

end K2HChar

namespace BackTranslation

/-- BackTranslation.apply_on_sample: round-trip through the two external
translation oracles (source to pivot, pivot back to source), each modelled
as a fallible call; any failure is caught locally and degrades to the
original text. -/
def apply_on_sample {ε : Type} (translatorJaEn translatorEnJa : String → Except ε String)
    (raw : String) : String :=
  match translatorJaEn raw with
  | .error _ => raw
  | .ok translated =>
      match translatorEnJa translated with
      | .error _ => raw
      | .ok back => back

end BackTranslation

/-- ASCII backtick character (written via its code point). -/
def backtick : Char := Char.ofNat 96

/-- Characters of Python string.punctuation, as used in remove_punc. -/
def asciiPunct : List Char :=
  "!\"#$%&".toList ++ [apos] ++ "()*+,-./:;<=>?@[\\]^_".toList ++
    [backtick] ++ "\x7b|\x7d~".toList

/-- Exclusion list of remove_punc in evaluation.py / evaluation_with_log.py:
the full-width Japanese punctuation string followed by the ASCII punctuation
set, splatted into single-character strings. -/
def excludePunct : List String :=
  ("！？｡。＂＃＄％＆＇（）＊＋，－／：；＜＝＞＠［＼］＾＿｀｛｜｝～｟｠｢｣､、〃》「」『』【】〔〕〖〗〘〙〚〛〜〝〞〟〰〾〿–—‘’‛“”„‟…‧﹏.".toList
      ++ asciiPunct).map (fun c => String.mk [c])

/-- remove_punc from evaluation.py: drop tokens that are members of the
punctuation exclusion list. -/
def remove_punc (tokens : List String) : List String :=
  tokens.filter (fun tok => !(excludePunct.contains tok))

/-- Model of Python str.split() with no argument: split on whitespace and
discard empty pieces. -/
def pySplit (s : String) : List String :=
  (s.split (fun c => c.isWhitespace)).filter (fun t => t != "")

/-- Bag (multiset) intersection size of two token lists, modelling
`common = Counter(p) & Counter(g); num_same = sum(common.values())`. -/
def num_same (p g : List String) : Nat :=
  (p.dedup.map (fun t => min (p.count t) (g.count t))).sum

/-- f1_score from evaluation.py.  The composite
`tagger.parse(normalize_answer(x)).split()` (neologdn/emoji normalization
plus the external morphological tagger in space-joined mode) is the `parse`
oracle; punctuation removal and the token-bag F1 computation are embedded
from the source.  A zero bag intersection returns 0 before any division. -/
def f1_score (parse : String → List String) (prediction ground_truth : String) : ℚ :=
  let prediction_tokens := remove_punc (parse prediction)
  let ground_truth_tokens := remove_punc (parse ground_truth)
  let ns := num_same prediction_tokens ground_truth_tokens
  if ns = 0 then 0
  else
    let precision : ℚ :=
      if 0 < prediction_tokens.length then (ns : ℚ) / prediction_tokens.length else 0
    let «recall» : ℚ :=
      if 0 < ground_truth_tokens.length then (ns : ℚ) / ground_truth_tokens.length else 0
    if 0 < precision + «recall» then 2 * precision * «recall» / (precision + «recall») else 0

/-- exact_match_score from evaluation.py: normalized-string equality, with
normalize_answer (external normalizer) as the `normalize` oracle. -/
def exact_match_score (normalize : String → String) (prediction ground_truth : String) : Bool :=
  normalize prediction == normalize ground_truth

/-- Exact-match score as the 0-or-1 number Python obtains when summing and
maximizing the booleans returned by exact_match_score. -/
def emScore (normalize : String → String) (prediction ground_truth : String) : ℚ :=
  if exact_match_score normalize prediction ground_truth then 1 else 0

/-- Model of Python max() on a list of scores: the maximum of a non-empty
list, raising (None) on an empty one. -/
def pyMax : List ℚ → Option ℚ
  | [] => none
  | x :: xs => some (xs.foldl max x)

/-- metric_max_over_ground_truths from evaluation.py: the per-gold-answer
scores of a prediction, maximized by Python max (which raises on an empty
gold list). -/
def metric_max_over_ground_truths (metric : String → String → ℚ)
    (prediction : String) (ground_truths : List String) : Option ℚ :=
  pyMax (ground_truths.map (fun gt => metric prediction gt))

/-- RawAnswers models the three accepted shapes of the answers field: a
mapping with a text key, a raw list, or a scalar. -/
inductive RawAnswers where
  | dictText (text : List String)
  | listAnswers (l : List String)
  | scalar (s : String)
deriving DecidableEq

/-- Gold-answer normalization inside evaluate_dataset: the text list of a
mapping, a raw list as is, or the stringified scalar as a singleton. -/
def goldAnswers : RawAnswers → List String
  | .dictText text => text
  | .listAnswers l => l
  | .scalar s => [s]

/-- EvalSample carries the fields of one dataset entry that evaluate_dataset
reads: the target-column text, the context, and the answers. -/
structure EvalSample where
  target : String
  context : String
  answers : RawAnswers

/-- Per-sample scoring inside evaluate_dataset: normalize the gold answers,
then take the F1 and EM maxima over them; an empty gold list makes the
Python max raise, modelled as None. -/
def scoreSample (f1m emm : String → String → ℚ) (prediction : String)
    (s : EvalSample) : Option (ℚ × ℚ) :=
  let gold_answers := goldAnswers s.answers
  match metric_max_over_ground_truths f1m prediction gold_answers with
  | none => none
  | some f1 =>
      match metric_max_over_ground_truths emm prediction gold_answers with
      | none => none
      | some em => some (f1, em)

/-- Accumulation loop of evaluate_dataset: total_f1, total_em and count over
the samples, aborting (like an uncaught exception) as soon as one sample
fails to score.  The prediction for sample i is the decoded QA-model output,
an external oracle indexed by position. -/
def sumScores (f1m emm : String → String → ℚ) (predict : Nat → String) :
    Nat → List EvalSample → Option (ℚ × ℚ × Nat)
  | _, [] => some (0, 0, 0)
  | i, s :: rest =>
      match scoreSample f1m emm (predict i) s with
      | none => none
      | some sc =>
          match sumScores f1m emm predict (i + 1) rest with
          | none => none
          | some (tf, te, c) => some (sc.1 + tf, sc.2 + te, c + 1)

/-- evaluate_dataset from evaluation.py: returns the pair
(avg_f1, avg_em) = (100 * total_f1 / count, 100 * total_em / count), in
exactly that order; an empty dataset or a failing sample aborts (None). -/
def evaluate_dataset (f1m emm : String → String → ℚ) (predict : Nat → String)
    (dataset : List EvalSample) : Option (ℚ × ℚ) :=
  match sumScores f1m emm predict 0 dataset with
  | none => none
  | some (total_f1, total_em, count) =>
      if count = 0 then none
      else some (100 * (total_f1 / count), 100 * (total_em / count))

/-- Summary models one element of the JSON results array written by main. -/
structure Summary where
  filename : String
  attack_type : String
  em : ℚ
  f1 : ℚ
  num_samples : Nat
deriving DecidableEq

/-- Summary record assembled by main in evaluation.py, where the call site
reads `em, f1 = evaluate_dataset(...)`: since evaluate_dataset returns
(avg_f1, avg_em), the first component (the F1 average) is bound to em and
the second (the EM average) to f1. -/
def evaluationSummary (filename attack : String) (result : ℚ × ℚ) (n : Nat) : Summary :=
  { filename := filename, attack_type := attack,
    em := result.1, f1 := result.2, num_samples := n }

/-- Summary record assembled by main in evaluation_with_log.py, where the
call site reads `f1, em, predictions = evaluate_dataset(...)`: the F1
average is bound to f1 and the EM average to em. -/
def evaluationWithLogSummary (filename attack : String) (result : ℚ × ℚ) (n : Nat) : Summary :=
  { filename := filename, attack_type := attack,
    em := result.2, f1 := result.1, num_samples := n }

/-! Theorems. -/

/-- C9: failure of either external translation call inside back-translation
is caught in apply_on_sample and degrades to the original sentence; the
exception never escapes (the embedded function is total into plain text)
and on success the perturbed field is the pivot-and-back round trip. -/
theorem back_translation_catches_oracle_failure {ε : Type}
    (translatorJaEn translatorEnJa : String → Except ε String) (raw : String) :
    ((∃ e, translatorJaEn raw = .error e) →
        BackTranslation.apply_on_sample translatorJaEn translatorEnJa raw = raw)
    ∧ (∀ en e, translatorJaEn raw = .ok en → translatorEnJa en = .error e →
        BackTranslation.apply_on_sample translatorJaEn translatorEnJa raw = raw)
    ∧ (∀ en ja, translatorJaEn raw = .ok en → translatorEnJa en = .ok ja →
        BackTranslation.apply_on_sample translatorJaEn translatorEnJa raw = ja)
    ∧ (BackTranslation.apply_on_sample translatorJaEn translatorEnJa raw = raw
        ∨ ∃ en, translatorJaEn raw = .ok en ∧
            translatorEnJa en =
              .ok (BackTranslation.apply_on_sample translatorJaEn translatorEnJa raw)) := by
  refine ⟨?_, ?_, ?_, ?_⟩
  · rintro ⟨e, he⟩
    simp [BackTranslation.apply_on_sample, he]
  · intro en e h1 h2
    simp [BackTranslation.apply_on_sample, h1, h2]
  · intro en ja h1 h2
    simp [BackTranslation.apply_on_sample, h1, h2]
  · cases h1 : translatorJaEn raw with
    | error e => left; simp [BackTranslation.apply_on_sample, h1]
    | ok en =>
        cases h2 : translatorEnJa en with
        | error e => left; simp [BackTranslation.apply_on_sample, h1, h2]
        | ok ja =>
            right
            exact ⟨en, rfl, by simp [BackTranslation.apply_on_sample, h1, h2]⟩

/-- Witness for C9 at concrete oracles: the round-trip result is written
when both calls succeed. -/
theorem back_translation_catches_oracle_failure_witness :
    BackTranslation.apply_on_sample (ε := Unit)
      (fun _ => .ok "en") (fun _ => .ok "ja") "q" = "ja" :=
  (back_translation_catches_oracle_failure (ε := Unit)
    (fun _ => .ok "en") (fun _ => .ok "ja") "q").2.2.1 "en" "ja" rfl rfl

/-- C4: one deletion round on a token strictly longer than the (positive)
minimum length threshold removes exactly one character, giving length
len - 1; a token at or below the threshold is returned unchanged. -/
theorem delete_char_single_round_length (w : List Char) (minLen r : Nat)
    (hmin : 1 ≤ minLen) :
    (minLen < w.length →
        DeleteChar.execute_deletion minLen [r] w =
          some (w.eraseIdx (r % (w.length - 1)))
        ∧ (w.eraseIdx (r % (w.length - 1))).length = w.length - 1)
    ∧ (w.length ≤ minLen → DeleteChar.execute_deletion minLen [r] w = some w) := by
  constructor
  · intro hlen
    have hne : w.length - 1 ≠ 0 := by omega
    have hidx : r % (w.length - 1) < w.length - 1 := Nat.mod_lt _ (by omega)
    refine ⟨?_, List.length_eraseIdx_of_lt (by omega)⟩
    simp [DeleteChar.execute_deletion, randrange, hlen, hne]
  · intro hle
    simp [DeleteChar.execute_deletion, Nat.not_lt.mpr hle]

/-- Witness for C4 on the three-character token abc with threshold 1 and
draw 5: the character at index 5 mod 2 = 1 is removed. -/
theorem delete_char_single_round_length_witness :
    (1 ≤ 1 ∧ 1 < (['a', 'b', 'c'] : List Char).length)
    ∧ DeleteChar.execute_deletion 1 [5] ['a', 'b', 'c'] = some ['a', 'c'] :=
  ⟨⟨le_refl 1, by decide⟩,
    ((delete_char_single_round_length ['a', 'b', 'c'] 1 5 (le_refl 1)).1
      (by decide)).1⟩

/-- C3 counterexample: on the two-character token ab with threshold 1,
every draw deletes index 0 (randrange(0, len - 1) can never return the
final index), so the outcome is always b and never a; deleting the final
character, which the claim asserts happens with probability 1/len, is
unreachable. -/
theorem delete_char_final_position_unreachable :
    (fun r => DeleteChar.execute_deletion 1 [r] ['a', 'b']) = (fun _ => some ['b'])
    ∧ (['a', 'b'] : List Char).eraseIdx 1 = ['a'] := by
  constructor
  · funext r
    simp [DeleteChar.execute_deletion, randrange, Nat.mod_one]
  · rfl

/-- C3 (amended): one deletion round on a token longer than the positive
threshold removes the character at index randrange(0, len - 1), which is
uniform over the first len - 1 positions only: the final position is never
selected, and each index below len - 1 arises from exactly one of the
len - 1 equiprobable draws (probability 1/(len - 1) each). -/
theorem delete_char_uniform_over_initial_positions (w : List Char)
    (minLen r : Nat) (hmin : 1 ≤ minLen) (hlen : minLen < w.length) :
    DeleteChar.execute_deletion minLen [r] w =
      some (w.eraseIdx (r % (w.length - 1)))
    ∧ r % (w.length - 1) < w.length - 1
    ∧ (∀ i, i < w.length - 1 →
        DeleteChar.execute_deletion minLen [i] w = some (w.eraseIdx i)
        ∧ (List.range (w.length - 1)).count i = 1) := by
  have hne : w.length - 1 ≠ 0 := by omega
  refine ⟨?_, Nat.mod_lt _ (by omega), ?_⟩
  · simp [DeleteChar.execute_deletion, randrange, hlen, hne]
  · intro i hi
    constructor
    · have hmod : i % (w.length - 1) = i := Nat.mod_eq_of_lt hi
      simp [DeleteChar.execute_deletion, randrange, hlen, hne, hmod]
    · exact List.count_eq_one_of_mem (List.nodup_range _) (List.mem_range.mpr hi)

/-- Witness for the amended C3 on the token abc with threshold 1, draw 7:
index 7 mod 2 = 1 is removed, and both initial positions are uniformly
reachable. -/
theorem delete_char_uniform_over_initial_positions_witness :
    (1 ≤ 1 ∧ 1 < (['a', 'b', 'c'] : List Char).length)
    ∧ DeleteChar.execute_deletion 1 [7] ['a', 'b', 'c'] = some ['a', 'c']
    ∧ 7 % 2 < 2 :=
  ⟨⟨le_refl 1, by decide⟩,
    (delete_char_uniform_over_initial_positions ['a', 'b', 'c'] 1 7
      (le_refl 1) (by decide)).1,
    (delete_char_uniform_over_initial_positions ['a', 'b', 'c'] 1 7
      (le_refl 1) (by decide)).2.1⟩

/-- C8: when target selection finds nothing eligible, the attack writes the
original text unchanged and raises nothing: shown for word deletion, word
repetition and the character-level katakana-to-hiragana conversion (the
cited sites), and for the delete-char reinsertion loop, whose sampled word
list is necessarily empty. -/
theorem no_targets_leaves_text_unchanged (posTag : Option String)
    (tokens : List MToken) (raw : List Char) :
    (DeleteWord.target_indices posTag tokens = [] →
        ∀ chosen, DeleteWord.apply_on_sample posTag tokens raw chosen = raw)
    ∧ (RepeatWord.target_indices posTag tokens = [] →
        ∀ chosen, RepeatWord.apply_on_sample posTag tokens raw chosen = raw)
    ∧ (K2HChar.target_tokens posTag tokens = [] →
        ∀ kata2hira chosen draws,
          K2HChar.apply_on_sample kata2hira posTag tokens raw chosen draws = raw)
    ∧ (∀ (minLen : Nat) (chosen newWords : List (List Char)),
        DeleteChar.target_tokens posTag minLen tokens = [] →
        (∀ word ∈ chosen, word ∈ DeleteChar.target_tokens posTag minLen tokens) →
        applyReinsertion (chosen.zip newWords) raw = raw) := by
  refine ⟨?_, ?_, ?_, ?_⟩
  · intro h chosen
    simp [DeleteWord.apply_on_sample, h]
  · intro h chosen
    simp [RepeatWord.apply_on_sample, h]
  · intro h kata2hira chosen draws
    simp [K2HChar.apply_on_sample, h, applyReinsertion]
  · intro minLen chosen newWords h hsub
    have hchosen : chosen = [] := by
      cases chosen with
      | nil => rfl
      | cons a l =>
          exact absurd (hsub a (List.mem_cons_self a l)) (by simp [h])
    subst hchosen
    simp [applyReinsertion]

/-- Witness for C8 on a single symbol token, ineligible for every attack. -/
theorem no_targets_leaves_text_unchanged_witness :
    DeleteWord.target_indices none [⟨['。'], "記号"⟩] = []
    ∧ DeleteWord.apply_on_sample none [⟨['。'], "記号"⟩] ['あ'] [0] = ['あ'] :=
  ⟨by decide,
    (no_targets_leaves_text_unchanged none [⟨['。'], "記号"⟩] ['あ']).1
      (by decide) [0]⟩

/-- C2 counterexample: the claim that no transform ever selects a token of
the excluded closed-class set fails twice over tagger outputs.  A particle
token (part of speech 助詞) whose surface is a katakana character passes the
target filters of both katakana-to-hiragana transforms, which exclude only
symbol / boundary / whitespace; and a particle token whose feature uses the
attributed pos1=<quoted 助詞> encoding passes the target filters of all four
comma-splitting character transforms, whose comma field is then the whole
first attribute and never a member of the excluded set. -/
theorem closed_class_tokens_selected_by_transforms :
    (K2HChar.target_tokens none [⟨['ハ'], "助詞"⟩] = [['ハ']]
      ∧ "助詞" ∈ excludedFull
      ∧ K2HWord.target_indices none [⟨['ハ'], "助詞"⟩] = [0])
    ∧ (extractPos particleAttrFeature = "助詞"
      ∧ posFromComma particleAttrFeature ∉ excludedFull
      ∧ DeleteChar.target_tokens none 1 [⟨['か', 'ら'], particleAttrFeature⟩] =
          [['か', 'ら']]
      ∧ InsertChar.eligible none 1 ⟨['か', 'ら'], particleAttrFeature⟩ = true
      ∧ ReplaceChar.eligible none 1 ⟨['か', 'ら'], particleAttrFeature⟩ = true
      ∧ SwapChar.eligible none 1 ⟨['か', 'ら'], particleAttrFeature⟩ = true) :=
  ⟨⟨by decide, by decide, by decide⟩,
    by decide, by decide, by decide, by decide, by decide, by decide⟩

/-- C2 (amended): the transforms using the robust attributed-first
part-of-speech extraction (repeat_char, delete_word, repeat_word,
swap_word, synonym replacement, homophone substitution) never select a
token whose extracted part of speech is in the excluded closed-class set.
The four comma-splitting character transforms (delete / insert / replace /
swap char) test the first comma-delimited field of the feature string
instead: under the comma-delimited encoding that field is the part of
speech and closed-class tokens are rejected, but under the attributed
encoding it never matches the excluded set and particle tokens can be
selected.  The two katakana-to-hiragana conversions exclude only symbol /
boundary marker / whitespace, so particle and auxiliary-verb tokens
containing katakana can be selected there as well. -/
theorem excluded_pos_never_selected (t : MToken) (posTag : Option String)
    (minLen : Nat) :
    (extractPos t.feature ∈ excludedFull →
        RepeatChar.eligible posTag minLen t = false
        ∧ DeleteWord.eligible posTag t = false
        ∧ RepeatWord.eligible posTag t = false
        ∧ SwapWord.eligible posTag t = false
        ∧ SynonymReplace.eligible posTag t = false
        ∧ ∀ skk reading kata2hira,
            HomophoneError.eligibleYomi skk reading kata2hira posTag t = none)
    ∧ (posFromComma t.feature ∈ excludedFull →
        DeleteChar.eligible posTag minLen t = false
        ∧ InsertChar.eligible posTag minLen t = false
        ∧ ReplaceChar.eligible posTag minLen t = false
        ∧ SwapChar.eligible posTag minLen t = false)
    ∧ (DeleteChar.eligible none 1 ⟨['か', 'ら'], particleAttrFeature⟩ = true
        ∧ extractPos particleAttrFeature ∈ excludedFull
        ∧ posFromComma particleAttrFeature ∉ excludedFull)
    ∧ (extractPos t.feature ∈ excludedK2H →
        K2HChar.eligible posTag t = false
        ∧ K2HWord.eligible posTag t = false
        ∧ ∀ tokens : List MToken, t ∉ tokens.filter (K2HChar.eligible posTag))
    ∧ (K2HChar.eligible none ⟨['ハ'], "助詞"⟩ = true ∧ "助詞" ∈ excludedFull) := by
  refine ⟨?_, ?_, ⟨by decide, by decide, by decide⟩, ?_, by decide, by decide⟩
  · intro h
    refine ⟨?_, ?_, ?_, ?_, ?_, ?_⟩ <;>
      first
        | simp [RepeatChar.eligible, DeleteWord.eligible, RepeatWord.eligible,
            SwapWord.eligible, SynonymReplace.eligible, h]
        | (intro skk reading kata2hira
           simp only [HomophoneError.eligibleYomi]
           cases reading t.feature with
           | none => rfl
           | some rk => simp [h])
  · intro h
    refine ⟨?_, ?_, ?_, ?_⟩ <;>
      simp [DeleteChar.eligible, InsertChar.eligible, ReplaceChar.eligible,
        SwapChar.eligible, h]
  · intro h
    have h1 : K2HChar.eligible posTag t = false := by
      simp [K2HChar.eligible, h]
    have h2 : K2HWord.eligible posTag t = false := by
      simp [K2HWord.eligible, h]
    refine ⟨h1, h2, ?_⟩
    intro tokens hmem
    have := List.of_mem_filter hmem
    rw [h1] at this
    exact Bool.noConfusion this

/-- Witness for the amended C2: a particle token in the attributed feature
encoding is rejected by the robust word-deletion filter, and one in the
comma-delimited encoding by the delete-char filter. -/
theorem excluded_pos_never_selected_witness :
    (extractPos particleAttrFeature ∈ excludedFull
      ∧ DeleteWord.eligible none ⟨['か', 'ら'], particleAttrFeature⟩ = false)
    ∧ (posFromComma "助詞" ∈ excludedFull
      ∧ DeleteChar.eligible none 1 ⟨['は'], "助詞"⟩ = false) :=
  ⟨⟨by decide,
      ((excluded_pos_never_selected ⟨['か', 'ら'], particleAttrFeature⟩ none 1).1
        (by decide)).2.1⟩,
    ⟨by decide,
      ((excluded_pos_never_selected ⟨['は'], "助詞"⟩ none 1).2.1 (by decide)).1⟩⟩

/-- C6: a zero token-bag intersection makes f1_score return 0 through the
early num_same = 0 branch, reached before any division is evaluated; in
particular an empty prediction token list or an empty gold token list
scores 0 and never divides by zero. -/
theorem f1_zero_overlap_returns_zero (parse : String → List String)
    (p g : String) :
    (num_same (remove_punc (parse p)) (remove_punc (parse g)) = 0 →
        f1_score parse p g = 0)
    ∧ (remove_punc (parse p) = [] → f1_score parse p g = 0)
    ∧ (remove_punc (parse g) = [] → f1_score parse p g = 0) := by
  have key : ∀ h : num_same (remove_punc (parse p)) (remove_punc (parse g)) = 0,
      f1_score parse p g = 0 := by
    intro h
    simp only [f1_score, h]
    simp
  refine ⟨key, ?_, ?_⟩
  · intro h
    exact key (by simp [num_same, h])
  · intro h
    exact key (by simp [num_same, h])

/-- Witness for C6 on disjoint singleton token bags. -/
theorem f1_zero_overlap_returns_zero_witness :
    num_same (remove_punc ["a"]) (remove_punc ["b"]) = 0
    ∧ f1_score (fun s => if s = "p" then ["a"] else ["b"]) "p" "g" = 0 :=
  ⟨by decide,
    (f1_zero_overlap_returns_zero (fun s => if s = "p" then ["a"] else ["b"])
      "p" "g").1 (by decide)⟩

/-- Element produced by the model of random.choice on a non-empty list is a
member of that list. -/
theorem randChoice_mem {α : Type} (l : List α) (r : Nat) (h : l ≠ []) :
    ∃ a, randChoice l r = some a ∧ a ∈ l := by
  have hlen : 0 < l.length := List.length_pos.mpr h
  have hlt : r % l.length < l.length := Nat.mod_lt _ hlen
  refine ⟨l.get ⟨r % l.length, hlt⟩, ?_, List.get_mem l (r % l.length) hlt⟩
  rw [randChoice, if_neg (by simpa [List.isEmpty_iff] using h)]
  exact List.getElem?_eq_getElem hlt

/-- C5: in the homophone replacement step, when the lexicon entry for the
reading has at least two distinct candidates of which one differs from the
current surface, the replacement written at the index is a lexicon
candidate and never the original surface; when every candidate equals the
surface the word list is left unchanged and no error is raised. -/
theorem homophone_replacement_never_original
    (skk : String → Option (List String)) (wl : List String) (idx : Nat)
    (yomi : String) (r : Nat) (hidx : idx < wl.length) :
    ((2 ≤ ((skk yomi).getD []).dedup.length ∧
        ∃ c ∈ (skk yomi).getD [], c ≠ wl.getD idx "") →
        (HomophoneError.replaceStep skk wl idx yomi r).getD idx "" ≠ wl.getD idx ""
        ∧ (HomophoneError.replaceStep skk wl idx yomi r).getD idx "" ∈ (skk yomi).getD [])
    ∧ ((∀ c ∈ (skk yomi).getD [], c = wl.getD idx "") →
        HomophoneError.replaceStep skk wl idx yomi r = wl) := by
  constructor
  · rintro ⟨-, c, hc, hne⟩
    have hcv : c ∈ ((skk yomi).getD []).filter (fun x => x != wl.getD idx "") :=
      List.mem_filter.mpr ⟨hc, by simpa using hne⟩
    obtain ⟨a, hch, hav⟩ := randChoice_mem _ r (List.ne_nil_of_mem hcv)
    have hfil := List.mem_filter.mp hav
    have hstep : HomophoneError.replaceStep skk wl idx yomi r = wl.set idx a := by
      simp only [HomophoneError.replaceStep, hch]
    rw [hstep]
    have hgd : (wl.set idx a).getD idx "" = a := by
      simp [List.getD_eq_getElem?_getD, List.getElem?_set_self hidx]
    rw [hgd]
    exact ⟨by simpa using hfil.2, hfil.1⟩
  · intro hall
    have hvnil : ((skk yomi).getD []).filter (fun x => x != wl.getD idx "") = [] := by
      rw [List.filter_eq_nil_iff]
      intro a ha
      simp [hall a ha]
    rw [HomophoneError.replaceStep]
    rw [hvnil]
    rfl

/-- Witness for C5 on a two-candidate lexicon entry, one candidate equal to
the surface: the replacement differs from the original surface. -/
theorem homophone_replacement_never_original_witness :
    0 < (["甲"] : List String).length
    ∧ (HomophoneError.replaceStep (fun _ => some ["甲", "乙"]) ["甲"] 0 "k" 0).getD 0 ""
        ≠ (["甲"] : List String).getD 0 "" :=
  ⟨by decide,
    ((homophone_replacement_never_original (fun _ => some ["甲", "乙"]) ["甲"]
        0 "k" 0 (by decide)).1 ⟨by decide, "乙", by decide, by decide⟩).1⟩

/-- First-occurrence characterization of replaceFirst: the text splits at
the earliest occurrence and only that occurrence is rewritten. -/
theorem replaceFirst_firstOccurrence (old new : List Char) :
    ∀ s : List Char, old <:+: s →
      ∃ pre post, s = pre ++ old ++ post
        ∧ replaceFirst old new s = pre ++ new ++ post
        ∧ ∀ pre2 post2, s = pre2 ++ old ++ post2 → pre.length ≤ pre2.length := by
  intro s
  induction s with
  | nil =>
      intro h
      have hold : old = [] := List.infix_nil.mp h
      refine ⟨[], [], by simp [hold], ?_, fun pre2 post2 _ => by simp⟩
      simp [replaceFirst, hold]
  | cons c rest ih =>
      intro h
      by_cases hp : old.isPrefixOf (c :: rest)
      · obtain ⟨t, ht⟩ := List.isPrefixOf_iff_prefix.mp hp
        refine ⟨[], t, by simp [ht], ?_, fun pre2 post2 _ => by simp⟩
        have hdrop : (c :: rest).drop old.length = t := by
          rw [← ht, List.drop_left]
        rw [replaceFirst, if_pos hp, hdrop]
        simp
      · have hinf : old <:+: rest := by
          rcases List.infix_cons_iff.mp h with hpre | hrest
          · exact absurd (List.isPrefixOf_iff_prefix.mpr hpre) hp
          · exact hrest
        obtain ⟨pre, post, h1, h2, h3⟩ := ih hinf
        refine ⟨c :: pre, post, by simp [← h1], ?_, ?_⟩
        · rw [replaceFirst, if_neg hp, h2]
          simp
        · intro pre2 post2 heq
          cases pre2 with
          | nil =>
              exfalso
              apply hp
              apply List.isPrefixOf_iff_prefix.mpr
              exact ⟨post2, by simpa using heq.symm⟩
          | cons d pre2i =>
              have hrest2 : rest = pre2i ++ old ++ post2 := by
                have := congrArg List.tail heq
                simpa using this
              simpa using Nat.succ_le_succ (h3 pre2i post2 hrest2)

/-- C7: one reinsertion step of the character-level transforms replaces
exactly the first occurrence of the chosen token's original surface with
the new surface: the sentence splits as pre ++ old ++ post with a minimal
prefix, the perturbed sentence is pre ++ new ++ post, and the suffix —
including any later occurrence of the surface — is untouched, so at most
one replacement happens per chosen token. -/
theorem reinsertion_replaces_first_occurrence (s old new : List Char)
    (h : old <:+: s) :
    ∃ pre post, s = pre ++ old ++ post
      ∧ applyReinsertion [(old, new)] s = pre ++ new ++ post
      ∧ ∀ pre2 post2, s = pre2 ++ old ++ post2 → pre.length ≤ pre2.length := by
  have happ : applyReinsertion [(old, new)] s = replaceFirst old new s := by
    simp [applyReinsertion]
  rw [happ]
  exact replaceFirst_firstOccurrence old new s h

/-- Witness for C7 on the text abab with token ab: only the first
occurrence is rewritten. -/
theorem reinsertion_replaces_first_occurrence_witness :
    (['a', 'b'] : List Char) <:+: ['a', 'b', 'a', 'b']
    ∧ ∃ pre post, (['a', 'b', 'a', 'b'] : List Char) = pre ++ ['a', 'b'] ++ post
        ∧ applyReinsertion [(['a', 'b'], ['x'])] ['a', 'b', 'a', 'b'] =
            pre ++ ['x'] ++ post
        ∧ ∀ pre2 post2,
            (['a', 'b', 'a', 'b'] : List Char) = pre2 ++ ['a', 'b'] ++ post2 →
            pre.length ≤ pre2.length :=
  ⟨⟨[], ['a', 'b'], rfl⟩,
    reinsertion_replaces_first_occurrence ['a', 'b', 'a', 'b'] ['a', 'b'] ['x']
      ⟨[], ['a', 'b'], rfl⟩⟩

/-- Maximum folded over a list is one of the fold seed or list elements. -/
theorem foldl_max_mem (x : ℚ) (xs : List ℚ) : xs.foldl max x ∈ x :: xs := by
  induction xs generalizing x with
  | nil => simp
  | cons y ys ih =>
      simp only [List.foldl_cons]
      rcases max_choice x y with hm | hm <;> rw [hm]
      · rcases List.mem_cons.mp (ih x) with h | h
        · simp [h]
        · simp [h]
      · rcases List.mem_cons.mp (ih y) with h | h
        · simp [h]
        · simp [h]

/-- Every element of the seed-and-list family is bounded by the max fold. -/
theorem le_foldl_max (x : ℚ) (xs : List ℚ) :
    ∀ z ∈ x :: xs, z ≤ xs.foldl max x := by
  induction xs generalizing x with
  | nil => intro z hz; simp at hz; simp [hz]
  | cons y ys ih =>
      intro z hz
      simp only [List.foldl_cons]
      have hstep : max x y ≤ List.foldl max (max x y) ys :=
        ih (max x y) _ (List.mem_cons_self _ _)
      rcases List.mem_cons.mp hz with rfl | h
      · exact le_trans (le_max_left z y) hstep
      · rcases List.mem_cons.mp h with rfl | h2
        · exact le_trans (le_max_right x z) hstep
        · exact ih (max x y) z (List.mem_cons.mpr (Or.inr h2))

/-- Accumulation over a dataset fails as soon as one sample's gold-answer
list normalizes to empty. -/
theorem sumScores_none_of_empty_gold (f1m emm : String → String → ℚ)
    (predict : Nat → String) :
    ∀ (i : Nat) (l : List EvalSample),
      (∃ s ∈ l, goldAnswers s.answers = []) →
      sumScores f1m emm predict i l = none := by
  intro i l
  induction l generalizing i with
  | nil => rintro ⟨s, hs, -⟩; exact absurd hs (List.not_mem_nil s)
  | cons a rest ih =>
      rintro ⟨s, hs, hgold⟩
      rcases List.mem_cons.mp hs with rfl | hmem
      · have : scoreSample f1m emm (predict i) s = none := by
          simp [scoreSample, hgold, metric_max_over_ground_truths, pyMax]
        simp [sumScores, this]
      · simp only [sumScores]
        cases scoreSample f1m emm (predict i) a with
        | none => rfl
        | some sc => rw [ih (i + 1) ⟨s, hmem, hgold⟩]

/-- C10: metric_max_over_ground_truths yields the maximum per-gold score
exactly when the gold list is non-empty; on an empty normalized gold list
the Python max raises, so the sample is not scored 0 and evaluate_dataset
aborts for the whole file. -/
theorem metric_max_requires_nonempty_gold (metric : String → String → ℚ)
    (pred : String) (gts : List String) :
    (gts ≠ [] → ∃ q, metric_max_over_ground_truths metric pred gts = some q
        ∧ q ∈ gts.map (metric pred) ∧ ∀ x ∈ gts.map (metric pred), x ≤ q)
    ∧ (gts = [] → metric_max_over_ground_truths metric pred gts = none)
    ∧ (∀ (f1m emm : String → String → ℚ) (predict : Nat → String)
        (dataset : List EvalSample) (s : EvalSample), s ∈ dataset →
        goldAnswers s.answers = [] →
        evaluate_dataset f1m emm predict dataset = none) := by
  refine ⟨?_, ?_, ?_⟩
  · intro h
    cases hg : gts with
    | nil => exact absurd hg h
    | cons g rest =>
        refine ⟨(rest.map (metric pred)).foldl max (metric pred g), ?_, ?_, ?_⟩
        · simp [metric_max_over_ground_truths, pyMax]
        · simpa using foldl_max_mem (metric pred g) (rest.map (metric pred))
        · intro x hx
          exact le_foldl_max _ _ x (by simpa using hx)
  · intro h
    subst h
    rfl
  · intro f1m emm predict dataset s hmem hgold
    simp [evaluate_dataset,
      sumScores_none_of_empty_gold f1m emm predict 0 dataset ⟨s, hmem, hgold⟩]

/-- Witness for C10: one sample whose answers mapping carries an empty text
list makes the whole file evaluation abort. -/
theorem metric_max_requires_nonempty_gold_witness :
    goldAnswers (RawAnswers.dictText []) = []
    ∧ evaluate_dataset (fun _ _ => (0 : ℚ)) (fun _ _ => (0 : ℚ)) (fun _ => "p")
        [⟨"q", "c", RawAnswers.dictText []⟩] = none :=
  ⟨rfl,
    (metric_max_requires_nonempty_gold (fun _ _ => 0) "p" ["a"]).2.2
      (fun _ _ => 0) (fun _ _ => 0) (fun _ => "p")
      [⟨"q", "c", RawAnswers.dictText []⟩] ⟨"q", "c", RawAnswers.dictText []⟩
      (List.mem_singleton.mpr rfl) rfl⟩

/-- C1 (code bug in evaluation.py): at a dataset whose single sample has
per-sample F1 = 1 and EM = 0, evaluate_dataset returns (avg_f1, avg_em) =
(100, 0), but main's unpacking `em, f1 = evaluate_dataset(...)` writes a
summary with em = 100 (the F1 average) and f1 = 0 (the EM average) — the
two fields are swapped; evaluation_with_log.py, which unpacks
`f1, em, predictions = ...`, writes the intended record. -/
theorem evaluation_em_field_receives_f1_average :
    evaluate_dataset (f1_score (fun _ => ["a"])) (emScore (fun s => s))
        (fun _ => "x") [⟨"x", "ctx", RawAnswers.dictText ["y"]⟩] = some (100, 0)
    ∧ emScore (fun s => s) "x" "y" = 0
    ∧ f1_score (fun _ => ["a"]) "x" "y" = 1
    ∧ evaluationSummary "delete_char.json" "question_perturbed_DCR" (100, 0) 1 =
        { filename := "delete_char.json", attack_type := "question_perturbed_DCR",
          em := 100, f1 := 0, num_samples := 1 }
    ∧ (100 : ℚ) ≠ 100 * emScore (fun s => s) "x" "y"
    ∧ evaluationWithLogSummary "delete_char.json" "question_perturbed_DCR" (100, 0) 1 =
        { filename := "delete_char.json", attack_type := "question_perturbed_DCR",
          em := 0, f1 := 100, num_samples := 1 } := by
  have hra : remove_punc ["a"] = ["a"] := by decide
  have hn : num_same ["a"] ["a"] = 1 := by decide
  have hf1 : f1_score (fun _ => ["a"]) "x" "y" = 1 := by
    simp only [f1_score, hra, hn]
    norm_num
  have hem : emScore (fun s => s) "x" "y" = 0 := by
    simp [emScore, exact_match_score]
  refine ⟨?_, hem, hf1, rfl, ?_, rfl⟩
  · simp only [evaluate_dataset, sumScores, scoreSample,
      metric_max_over_ground_truths, goldAnswers, List.map, pyMax, hf1, hem]
    norm_num
  · rw [hem]
    norm_num

end QANoise
